import Mathlib

/-!
Verification of the textual SQL-dump structural extractor of the gym-management
analytics repository.

The functions under `phase1_database_exploration` (`data_extractor.py`,
`data_profiler.py`, `database_analyzer.py`) scan a MySQL-style dump with
regular expressions.  We embed them shallowly: strings are `List Char`,
and each regex operation used by the source (all of which are literal
prefixes combined with lazy `.*?` groups, the quote-aware field pattern
`(?:'[^']*'|[^,])+`, and backtick-word patterns) is translated into an
explicit, executable scanning function with the same leftmost-match,
lazy-group semantics.
-/

abbrev Str := List Char

def str (s : String) : Str := s.data

/-- The single-quote character `'`. -/
def quoteCh : Char := Char.ofNat 39

/-- The backtick character. -/
def btCh : Char := Char.ofNat 96

/-- Python `str.strip()` whitespace set (the characters relevant to this dump format). -/
def isSpaceCh (c : Char) : Bool :=
  c = ' ' || c = '\t' || c = '\n' || c = '\r' || c = '\x0b' || c = '\x0c'

/-- `strStarts pat s` : does `s` start with `pat` (Python `str.startswith` / anchored literal regex). -/
def strStarts : Str → Str → Bool
  | [], _ => true
  | _ :: _, [] => false
  | p :: ps, c :: cs => p = c && strStarts ps cs

/-- Find the first occurrence of `pat` in `s`; return the text before it and the
text after it.  This is the leftmost-match semantics of a lazy regex group
ending (or starting) at the literal `pat`. -/
def splitFirst (pat : Str) : Str → Option (Str × Str)
  | [] => if strStarts pat [] then some ([], []) else none
  | c :: rest =>
    if strStarts pat (c :: rest) then some ([], (c :: rest).drop pat.length)
    else
      match splitFirst pat rest with
      | some (pre, post) => some (c :: pre, post)
      | none => none

/-- Python `str.split(sep)` for a one-character separator. -/
def splitOnCh (sep : Char) : Str → List Str
  | [] => [[]]
  | c :: rest =>
    let r := splitOnCh sep rest
    if c = sep then [] :: r
    else
      match r with
      | [] => [[c]]
      | h :: t => (c :: h) :: t

/-- Drop trailing characters satisfying `p`. -/
def dropTrail (p : Char → Bool) (s : Str) : Str :=
  (s.reverse.dropWhile p).reverse

/-- Strip all leading and trailing characters satisfying `p`
(Python `str.strip(chars)` semantics). -/
def stripBy (p : Char → Bool) (s : Str) : Str :=
  dropTrail p (s.dropWhile p)

/-- Python `str.strip()` — strip whitespace. -/
def pyStrip (s : Str) : Str := stripBy isSpaceCh s

/-- Python `str.strip("'")` — strip all leading/trailing single quotes. -/
def stripQuotes (s : Str) : Str := stripBy (fun c => c = quoteCh) s

/-- Substring containment (Python `in` on strings). -/
def containsStr (pat : Str) : Str → Bool
  | [] => strStarts pat []
  | c :: rest => strStarts pat (c :: rest) || containsStr pat rest

/-! ## Schema Extractor (`data_extractor.extract_table_schema`) -/

/-- The literal head of the schema regex `` CREATE TABLE `name` \( `` for a table name. -/
def crePat (t : Str) : Str := str "CREATE TABLE " ++ btCh :: t ++ btCh :: str " ("

/-- The literal tail `) ENGINE` of the schema regex. -/
def engMarker : Str := str ") ENGINE"

/-- Reserved first tokens that do not name a column. -/
def reservedWords : List Str := [str "PRIMARY", str "KEY", str "CONSTRAINT", str "UNIQUE"]

/-- A schema body line is considered only when it does not begin with a
key/constraint declaration (source line 43). -/
def schemaLineOk (l : Str) : Bool :=
  !(strStarts (str "PRIMARY KEY") l) && !(strStarts (str "KEY") l) &&
  !(strStarts (str "CONSTRAINT") l) && !(strStarts (str "UNIQUE") l)

/-- `extract_table_schema` of `data_extractor.py` (lines 31–53): locate
`` CREATE TABLE `t` ( … ) ENGINE `` (lazy group, spanning newlines), split the
body into lines, and take the first whitespace-delimited token of each
non-skipped line, with backticks stripped. -/
def extract_table_schema (dump t : Str) : List Str :=
  match splitFirst (crePat t) dump with
  | none => []
  | some (_, rest) =>
    match splitFirst engMarker rest with
    | none => []
    | some (body, _) =>
      ((splitOnCh '\n' body).map pyStrip).foldl
        (fun cols line =>
          if !line.isEmpty && schemaLineOk line then
            let colName := stripBy (fun c => c = btCh) (line.takeWhile (fun c => !isSpaceCh c))
            if !colName.isEmpty && !(reservedWords.contains colName) then cols ++ [colName]
            else cols
          else cols)
        []

/-! ## Row Extractor (`data_extractor.extract_inserts`, identical helper in
`data_profiler.py`) -/

/-- The literal head `` INSERT INTO `name` `` of the insert regex. -/
def insPat (t : Str) : Str := str "INSERT INTO " ++ btCh :: t ++ [btCh]

/-- The literal `VALUES ` separating the statement head from its lazy data group. -/
def valuesLit : Str := str "VALUES "

/-- Fuelled scanner for `re.findall(r"INSERT INTO `t`.*?VALUES (.*?);", dump, re.DOTALL)`:
each match's group runs from the first `VALUES ` after the first `` INSERT INTO `t` ``
up to the first `;` after it; scanning resumes after that `;`. -/
def stmtSpansF (t : Str) : Nat → Str → List Str
  | 0, _ => []
  | fuel + 1, s =>
    match splitFirst (insPat t) s with
    | none => []
    | some (_, afterIns) =>
      match splitFirst valuesLit afterIns with
      | none => []
      | some (_, afterValues) =>
        match splitFirst [';'] afterValues with
        | none => []
        | some (span, rest) => span :: stmtSpansF t fuel rest

/-- All `VALUES`-clause spans for table `t` in `dump`. -/
def stmtSpans (t dump : Str) : List Str := stmtSpansF t (dump.length + 1) dump

/-- Fuelled scanner for `re.findall(r'\((.*?)\)', span, re.DOTALL)`: each group runs
from the character after the next `(` up to the first `)` after it. -/
def findTuplesF : Nat → Str → List Str
  | 0, _ => []
  | fuel + 1, s =>
    match splitFirst ['('] s with
    | none => []
    | some (_, afterOpen) =>
      match splitFirst [')'] afterOpen with
      | none => []
      | some (tup, rest) => tup :: findTuplesF fuel rest

/-- All parenthesised tuples of a `VALUES`-clause span. -/
def findTuples (s : Str) : List Str := findTuplesF (s.length + 1) s

/-- The quoted alternative `'[^']*'` of the field pattern: a quote, then
everything up to the next quote, then that quote. -/
def matchQuoted : Str → Option (Str × Str)
  | c :: rest =>
    if c = quoteCh then
      match splitFirst [quoteCh] rest with
      | some (content, rest2) => some (quoteCh :: content ++ [quoteCh], rest2)
      | none => none
    else none
  | [] => none

/-- One repetition of `(?:'[^']*'|[^,])`: the quoted alternative is tried first,
otherwise a single non-comma character. -/
def matchUnit (s : Str) : Option (Str × Str) :=
  match matchQuoted s with
  | some r => some r
  | none =>
    match s with
    | c :: rest => if c = ',' then none else some ([c], rest)
    | [] => none

/-- Fuelled greedy `+` over `matchUnit`: the maximal nonempty run of units. -/
def matchRunF : Nat → Str → Option (Str × Str)
  | 0, _ => none
  | fuel + 1, s =>
    match matchUnit s with
    | none => none
    | some (u, r) =>
      match matchRunF fuel r with
      | none => some (u, r)
      | some (m, r2) => some (u ++ m, r2)

def matchRun (s : Str) : Option (Str × Str) := matchRunF (s.length + 1) s

/-- Fuelled scanner for `re.findall(r"(?:'[^']*'|[^,])+", v)`: emit each maximal
match, advancing one character where no match starts. -/
def findallFieldsF : Nat → Str → List Str
  | 0, _ => []
  | _ + 1, [] => []
  | fuel + 1, c :: rest =>
    match matchRun (c :: rest) with
    | some (m, r) => m :: findallFieldsF fuel r
    | none => findallFieldsF fuel rest

def findallFields (s : Str) : List Str := findallFieldsF (s.length + 1) s

/-- The per-field transform `x.strip().strip("'")` (source line 68). -/
def fieldClean (x : Str) : Str := stripQuotes (pyStrip x)

/-- Decompose one tuple's text into its cleaned fields (source lines 67–68). -/
def rowOfTuple (v : Str) : List Str := (findallFields v).map fieldClean

/-- `extract_inserts` of `data_extractor.py` (lines 55–74): the nested
append-loops over statement spans and tuples. -/
def extract_inserts (t dump : Str) : List (List Str) :=
  (stmtSpans t dump).foldl
    (fun rows m => (findTuples m).foldl (fun rs v => rs ++ [rowOfTuple v]) rows)
    []

/-! ## Value cleaning and reconciliation (`data_extractor.py` lines 76–126) -/

/-- `clean_data_value` (lines 76–82): `NULL` and the empty string become `None`;
other values are stripped of whitespace and then of quote characters. -/
def clean_data_value (v : Str) : Option Str :=
  if v = str "NULL" || v = [] then none
  else some (stripBy (fun c => c = quoteCh || c = '"') (pyStrip v))

/-- Decimal rendering of a natural number, as Python `f"{i+1}"` produces. -/
def natToStr (n : Nat) : Str := Nat.toDigits 10 n

/-- The synthetic column name `column_<k>`. -/
def synthCol (k : Nat) : Str := str "column_" ++ natToStr k

/-- The column-count mismatch adjustment of `extract_table_data`
(lines 110–126): driven solely by the first row's field count. -/
def reconcileColumns (columns : List Str) (rows : List (List (Option Str))) : List Str :=
  match rows with
  | [] => columns
  | r0 :: _ =>
    let actual := r0.length
    let expected := columns.length
    if actual = expected then columns
    else if expected < actual then
      columns ++ (List.range' expected (actual - expected)).map (fun i => synthCol (i + 1))
    else columns.take actual

structure Table where
  columns : List Str
  rows : List (List (Option Str))
deriving DecidableEq

/-- `extract_table_data` (lines 84–142), with the CSV write abstracted away:
empty schema or empty row list yield `none` (the table is unavailable);
otherwise values are cleaned and the schema reconciled against the first row. -/
def extract_table_data (dump t : Str) : Option Table :=
  let columns := extract_table_schema dump t
  if columns.isEmpty then none
  else
    let rows := extract_inserts t dump
    if rows.isEmpty then none
    else
      let cleaned := rows.map (fun r => r.map clean_data_value)
      some ⟨reconcileColumns columns cleaned, cleaned⟩

/-! ## Relationship Extractor (`database_analyzer._parse_table_structure`,
lines 74–132) -/

/-- `\w` of the analyzer's regexes. -/
def isWordCh (c : Char) : Bool :=
  ('a' ≤ c && c ≤ 'z') || ('A' ≤ c && c ≤ 'Z') || ('0' ≤ c && c ≤ '9') || c = '_'

/-- ASCII upper-casing, for `str.upper()` and `re.IGNORECASE`. -/
def upCh (c : Char) : Char :=
  if 'a' ≤ c && c ≤ 'z' then Char.ofNat (c.toNat - 32) else c

def upStr (s : Str) : Str := s.map upCh

/-- Case-insensitive literal prefix test. -/
def strStartsCI (pat s : Str) : Bool := strStarts (upStr pat) (upStr s)

/-- Consume a case-insensitive literal. -/
def expectCI (pat s : Str) : Option Str :=
  if strStartsCI pat s then some (s.drop pat.length) else none

/-- Consume `` `(\w+)` `` : a backtick-quoted word, returning it and the rest. -/
def btWord : Str → Option (Str × Str)
  | c :: rest =>
    if c = btCh then
      let w := rest.takeWhile isWordCh
      let r := rest.dropWhile isWordCh
      if w.isEmpty then none
      else
        match r with
        | d :: r2 => if d = btCh then some (w, r2) else none
        | [] => none
    else none
  | [] => none

/-- Anchored match of `` FOREIGN KEY\s*\(`(\w+)`\)\s*REFERENCES\s+`(\w+)`\s*\(`(\w+)`\) ``
(re.IGNORECASE), used on standalone foreign-key lines (analyzer line 124). -/
def matchFKAt (s : Str) : Option (Str × Str × Str) :=
  match expectCI (str "FOREIGN KEY") s with
  | none => none
  | some s1 =>
    match s1.dropWhile isSpaceCh with
    | '(' :: s3 =>
      match btWord s3 with
      | none => none
      | some (col, s4) =>
        match s4 with
        | ')' :: s5 =>
          match expectCI (str "REFERENCES") (s5.dropWhile isSpaceCh) with
          | none => none
          | some s7 =>
            let s8 := s7.dropWhile isSpaceCh
            if s8.length = s7.length then none
            else
              match btWord s8 with
              | none => none
              | some (tbl, s9) =>
                match s9.dropWhile isSpaceCh with
                | '(' :: s11 =>
                  match btWord s11 with
                  | none => none
                  | some (colr, s12) =>
                    match s12 with
                    | ')' :: _ => some (col, tbl, colr)
                    | _ => none
                | _ => none
        | _ => none
    | _ => none

/-- `re.search` for the standalone foreign-key pattern: leftmost match wins. -/
def searchFK : Str → Option (Str × Str × Str)
  | [] => none
  | c :: rest =>
    match matchFKAt (c :: rest) with
    | some r => some r
    | none => searchFK rest

/-- Anchored match of `` PRIMARY KEY\s*\(`(\w+)`\) `` (analyzer line 119). -/
def matchPKAt (s : Str) : Option Str :=
  match expectCI (str "PRIMARY KEY") s with
  | none => none
  | some s1 =>
    match s1.dropWhile isSpaceCh with
    | '(' :: s3 =>
      match btWord s3 with
      | none => none
      | some (col, s4) =>
        match s4 with
        | ')' :: _ => some col
        | _ => none
    | _ => none

def searchPK : Str → Option Str
  | [] => none
  | c :: rest =>
    match matchPKAt (c :: rest) with
    | some r => some r
    | none => searchPK rest

/-- Anchored match of `` REFERENCES\s+`(\w+)`\s*\(`(\w+)`\) `` (analyzer line 104),
for inline column definitions. -/
def matchRefAt (s : Str) : Option (Str × Str) :=
  match expectCI (str "REFERENCES") s with
  | none => none
  | some s1 =>
    let s2 := s1.dropWhile isSpaceCh
    if s2.length = s1.length then none
    else
      match btWord s2 with
      | none => none
      | some (tbl, s3) =>
        match s3.dropWhile isSpaceCh with
        | '(' :: s5 =>
          match btWord s5 with
          | none => none
          | some (colr, s6) =>
            match s6 with
            | ')' :: _ => some (tbl, colr)
            | _ => none
        | _ => none

def searchRef : Str → Option (Str × Str)
  | [] => none
  | c :: rest =>
    match matchRefAt (c :: rest) with
    | some r => some r
    | none => searchRef rest

/-- Anchored match of `` ^`(\w+)`\s+([^,\n]+) `` (analyzer line 93) giving the
column name and its definition text; the `\s+`/`[^,\n]+` boundary backtracks
one step when the definition would otherwise be empty. -/
def colMatch (line : Str) : Option (Str × Str) :=
  match line with
  | c :: rest =>
    if c = btCh then
      let w := rest.takeWhile isWordCh
      let r1 := rest.dropWhile isWordCh
      if w.isEmpty then none
      else
        match r1 with
        | d :: r2 =>
          if d = btCh then
            let sp := r2.takeWhile isSpaceCh
            let r3 := r2.dropWhile isSpaceCh
            let defn := r3.takeWhile (fun ch => !(ch = ',' || ch = '\n'))
            if sp.isEmpty then none
            else if !defn.isEmpty then some (w, defn)
            else if 2 ≤ sp.length then some (w, sp.drop 1)
            else none
          else none
        | [] => none
    else none
  | [] => none

structure FKInfo where
  column : Str
  references_table : Str
  references_column : Str
deriving DecidableEq

structure TableInfo where
  name : Str
  columns : List (Str × Str)
  primary_keys : List Str
  foreign_keys : List FKInfo
deriving DecidableEq

/-- `_parse_table_structure` of `database_analyzer.py` (lines 74–132): per
stripped non-empty body line, try the column pattern first; otherwise a
standalone `PRIMARY KEY` line, otherwise a standalone `FOREIGN KEY` line. -/
def parseTableStructure (tableName body : Str) : TableInfo :=
  let lines := ((splitOnCh '\n' body).map pyStrip).filter (fun l => !l.isEmpty)
  lines.foldl
    (fun info line =>
      if strStarts (str "--") line then info
      else
        match colMatch line with
        | some (colName, colDefRaw) =>
          let colDef := pyStrip colDefRaw
          let info :=
            if containsStr (str "PRIMARY KEY") (upStr colDef) then
              { info with primary_keys := info.primary_keys ++ [colName] }
            else info
          let info :=
            if containsStr (str "REFERENCES") (upStr colDef) then
              match searchRef colDef with
              | some (tbl, colr) =>
                { info with foreign_keys := info.foreign_keys ++ [⟨colName, tbl, colr⟩] }
              | none => info
            else info
          { info with columns := info.columns ++ [(colName, colDef)] }
        | none =>
          if containsStr (str "PRIMARY KEY") (upStr line) then
            match searchPK line with
            | some pk => { info with primary_keys := info.primary_keys ++ [pk] }
            | none => info
          else if containsStr (str "FOREIGN KEY") (upStr line) then
            match searchFK line with
            | some (c, t2, c2) =>
              { info with foreign_keys := info.foreign_keys ++ [⟨c, t2, c2⟩] }
            | none => info
          else info)
    ⟨tableName, [], [], []⟩

/-! ## Well-formed tuple fields

To state the quote-awareness claims in generality we describe the shape of a
well-formed `VALUES` tuple: a comma-separated list of fields, each either a
single-quoted string (whose content may contain commas, parentheses, spaces —
anything but a quote) or a bare token. -/

inductive SqlField where
  | quoted : Str → SqlField
  | plain : Str → SqlField
deriving DecidableEq

/-- The source text of a field inside a tuple. -/
def SqlField.text : SqlField → Str
  | quoted s => quoteCh :: (s ++ [quoteCh])
  | plain s => s

/-- The value the extractor is expected to deliver for a field. -/
def SqlField.val : SqlField → Str
  | quoted s => s
  | plain s => s

/-- Characters allowed in a bare (unquoted) field: no separator, no quote,
no whitespace. -/
def plainCh (c : Char) : Bool := !(c = ',') && !(c = quoteCh) && !(isSpaceCh c)

/-- Well-formedness of a field for the field-splitting layer. -/
def SqlField.wf : SqlField → Bool
  | quoted s => s.all (fun c => !(c = quoteCh))
  | plain s => !s.isEmpty && s.all plainCh

/-- Characters additionally forbidden for a field to survive the span- and
tuple-boundary layers: the statement terminator and the tuple closer. -/
def SqlField.wfTup : SqlField → Bool
  | quoted s => s.all (fun c => !(c = quoteCh) && !(c = ')') && !(c = ';'))
  | plain s =>
      !s.isEmpty && s.all (fun c => plainCh c && !(c = ')') && !(c = '(') && !(c = ';'))

/-- The comma-separated rendering of a tuple's fields. -/
def renderFields : List SqlField → Str
  | [] => []
  | [f] => f.text
  | f :: g :: rest => f.text ++ ',' :: renderFields (g :: rest)

/-- A tail at which a field match must stop: end of tuple or a separating comma. -/
def niceTail (t : Str) : Prop := t = [] ∨ ∃ u, t = ',' :: u

/-! ## Concrete dump fixtures -/

/-- The end-to-end scenario dump of the spec (§8), with the `CREATE TABLE`
statement on one physical line. -/
def dumpPlans : Str := str "CREATE TABLE `plans` (`id` int, `name` varchar(50), `price` int) ENGINE=InnoDB;\nINSERT INTO `plans` (`id`,`name`,`price`) VALUES (1,'Basic',100),(2,'Pro, Plus',200);"

/-- A dump whose single row holds the quoted field `'NULL'`. -/
def dumpQuotedNull : Str := str "CREATE TABLE `t` (\n`a` int\n) ENGINE=X;\nINSERT INTO `t` VALUES ('NULL');"

/-- A dump whose quoted field contains a literal closing parenthesis. -/
def dumpParen : Str := str "INSERT INTO `t` VALUES ('a)b',2);"

/-- A dump whose second tuple holds a quoted field containing a semicolon. -/
def dumpSemi : Str := str "INSERT INTO `t` VALUES ('x'),('a;b'),(2);"

/-- A dump with an INSERT but no CREATE TABLE block for table `ghost`. -/
def dumpGhost : Str := str "INSERT INTO `ghost` VALUES (1);"

/-- The body of the `subscriptions` CREATE TABLE block of the spec's
foreign-key scenario. -/
def subsBody : Str := str "\n  `id` int NOT NULL,\n  `plan_id` int,\n  PRIMARY KEY (`id`),\n  FOREIGN KEY (`plan_id`) REFERENCES `plans`(`id`)\n"

/-! ## Basic lemmas about the scanning primitives -/

theorem strStarts_append (p r : Str) : strStarts p (p ++ r) = true := by
  induction p with
  | nil => rfl
  | cons c cs ih => simp [strStarts, ih]

theorem splitFirst_self (pat r : Str) : splitFirst pat (pat ++ r) = some ([], r) := by
  cases pat with
  | nil =>
    cases r with
    | nil => rfl
    | cons c rest => simp [splitFirst, strStarts]
  | cons p ps =>
    show splitFirst (p :: ps) (p :: (ps ++ r)) = some ([], r)
    have h1 : strStarts (p :: ps) (p :: (ps ++ r)) = true := by
      have := strStarts_append (p :: ps) r
      simp only [List.cons_append] at this
      exact this
    simp only [splitFirst, h1, if_true]
    have h2 : (p :: (ps ++ r)).drop (p :: ps).length = r := by
      have h3 := List.drop_left (p :: ps) r
      simp only [List.cons_append] at h3
      exact h3
    rw [h2]

theorem splitFirst_cons_neg {pat : Str} {c : Char} {rest : Str}
    (h : strStarts pat (c :: rest) = false) :
    splitFirst pat (c :: rest)
      = (splitFirst pat rest).map (fun pr => (c :: pr.1, pr.2)) := by
  simp only [splitFirst, h, Bool.false_eq_true, if_false]
  cases splitFirst pat rest <;> simp

theorem strStarts_single_neg {c a : Char} (h : a ≠ c) (rest : Str) :
    strStarts [c] (a :: rest) = false := by
  simp only [strStarts, Bool.and_eq_true]
  simp
  intro hh
  exact absurd hh.symm h

theorem splitFirst_char (c : Char) (pre post : Str) (h : c ∉ pre) :
    splitFirst [c] (pre ++ c :: post) = some (pre, post) := by
  induction pre with
  | nil =>
    have := splitFirst_self [c] post
    simpa using this
  | cons a as ih =>
    have ha : a ≠ c := by
      intro hh; exact h (by simp [hh])
    have hs : strStarts [c] (a :: (as ++ c :: post)) = false :=
      strStarts_single_neg ha _
    rw [List.cons_append, splitFirst_cons_neg hs, ih (fun hm => h (List.mem_cons_of_mem a hm))]
    rfl

theorem splitFirst_char_not_mem (c : Char) :
    ∀ (s pre post : Str), splitFirst [c] s = some (pre, post) → c ∉ pre := by
  intro s
  induction s with
  | nil =>
    intro pre post h
    simp [splitFirst, strStarts] at h
  | cons a rest ih =>
    intro pre post h
    by_cases hs : strStarts [c] (a :: rest) = true
    · simp only [splitFirst, hs, if_true] at h
      cases h
      simp
    · have hs' : strStarts [c] (a :: rest) = false := by
        cases hh : strStarts [c] (a :: rest)
        · rfl
        · exact absurd hh hs
      rw [splitFirst_cons_neg hs'] at h
      cases hsp : splitFirst [c] rest with
      | none => rw [hsp] at h; simp at h
      | some pr =>
        rw [hsp] at h
        have h2 : (a :: pr.1, pr.2) = (pre, post) := by
          simpa using h
        have hpre : pre = a :: pr.1 := (congrArg Prod.fst h2).symm
        have hc : a ≠ c := by
          intro hh
          subst hh
          exact hs (by simp [strStarts])
        subst hpre
        intro hmem
        rcases List.mem_cons.mp hmem with h1 | h2
        · exact hc h1.symm
        · exact ih pr.1 pr.2 (by rw [hsp]) h2

/-! ## Folding lemmas: the append-loops of `extract_inserts` flatten to a `join` -/

theorem foldl_append_map {α β : Type} (f : α → β) :
    ∀ (l : List α) (acc : List β),
      l.foldl (fun rs v => rs ++ [f v]) acc = acc ++ l.map f := by
  intro l
  induction l with
  | nil => intro acc; simp
  | cons x xs ih => intro acc; simp [List.foldl, ih]

theorem foldl_append_join {α β : Type} (g : α → List β) :
    ∀ (l : List α) (acc : List β),
      l.foldl (fun a x => a ++ g x) acc = acc ++ (l.map g).flatten := by
  intro l
  induction l with
  | nil => intro acc; simp
  | cons x xs ih => intro acc; simp [List.foldl, ih]

/-- The nested append-loops of the source are equivalent to mapping
`rowOfTuple` over each span's tuples and concatenating, in source order. -/
theorem extract_inserts_eq (t dump : Str) :
    extract_inserts t dump
      = ((stmtSpans t dump).map (fun m => (findTuples m).map rowOfTuple)).flatten := by
  unfold extract_inserts
  have hfun : (fun (rows : List (List Str)) (m : Str) =>
      (findTuples m).foldl (fun rs v => rs ++ [rowOfTuple v]) rows)
      = fun rows m => rows ++ (findTuples m).map rowOfTuple := by
    funext rows m
    exact foldl_append_map rowOfTuple (findTuples m) rows
  rw [hfun]
  simpa using foldl_append_join (fun m => (findTuples m).map rowOfTuple) (stmtSpans t dump) []

/-! ## Claims -/

/-- C1 (counterexample): on the spec's one-line dump, the Schema Extractor
does not yield `[id, name, price]`: the whole `CREATE TABLE` body is a single
physical line, and the line-based column scan takes only its first token, so
the schema is `[id]`.  The row part of the claim does hold. -/
theorem c1_schema_counterexample :
    extract_table_schema dumpPlans (str "plans") = [str "id"] ∧
    extract_table_schema dumpPlans (str "plans") ≠ [str "id", str "name", str "price"] := by
  decide

set_option maxRecDepth 40000 in
/-- C1 (amended): for the one-line dump of the claim, extraction for table
`plans` yields the schema `[id]` — the single body line contributes only its
first token as a column — and the rows
`[["1","Basic","100"], ["2","Pro, Plus","200"]]` exactly as claimed. -/
theorem c1_one_line_dump_extraction :
    extract_table_schema dumpPlans (str "plans") = [str "id"] ∧
    extract_inserts (str "plans") dumpPlans
      = [[str "1", str "Basic", str "100"], [str "2", str "Pro, Plus", str "200"]] := by
  decide

set_option maxRecDepth 40000 in
/-- C2 (counterexample): a single-quoted field value `'NULL'` is *not* kept as
the literal string `"NULL"`: the Row Extractor strips the quotes and
`clean_data_value` then maps the bare `NULL` to the null marker, so the
reconciled table for the dump `INSERT INTO `t` VALUES ('NULL');` holds a null,
indistinguishable from an unquoted `NULL`. -/
theorem c2_quoted_null_counterexample :
    (extract_table_data dumpQuotedNull (str "t")).map Table.rows = some [[none]] ∧
    some [[(none : Option Str)]] ≠ some [[some (str "NULL")]] := by
  decide

set_option maxRecDepth 40000 in
/-- C2 (amended): an unquoted field value `NULL`, an empty field value, and a
single-quoted field value `'NULL'` all normalize to the null marker: the field
layer strips surrounding quotes, after which `clean_data_value` maps exactly
the literal `NULL` and the empty string to null, so a quoted `'NULL'` is not
distinguishable from null in the extractor's output. -/
theorem c2_null_normalization :
    (∀ v : Str, clean_data_value v = none ↔ (v = str "NULL" ∨ v = [])) ∧
    rowOfTuple (str "'NULL'") = [str "NULL"] ∧
    rowOfTuple (str "NULL") = [str "NULL"] ∧
    rowOfTuple (str "''") = [[]] ∧
    (extract_table_data dumpQuotedNull (str "t")).map Table.rows = some [[none]] := by
  refine ⟨?_, by decide, by decide, by decide, by decide⟩
  intro v
  unfold clean_data_value
  by_cases h : v = str "NULL" ∨ v = []
  · rcases h with h | h <;> subst h <;> simp
  · push_neg at h
    rw [if_neg]
    · simp [h.1, h.2]
    · simp [h.1, h.2]

/-- C4: the Row Extractor returns exactly one RawRow per parenthesised tuple:
its output is the concatenation, in source order, of each matching INSERT
statement's tuples mapped through the field decomposition, and its length is
the total tuple count across all matching statements. -/
theorem c4_one_row_per_tuple :
    (∀ t dump : Str,
      extract_inserts t dump
        = ((stmtSpans t dump).map (fun m => (findTuples m).map rowOfTuple)).flatten) ∧
    (∀ t dump : Str,
      (extract_inserts t dump).length
        = ((stmtSpans t dump).map (fun m => (findTuples m).length)).sum) := by
  refine ⟨fun t dump => extract_inserts_eq t dump, fun t dump => ?_⟩
  rw [extract_inserts_eq, List.length_flatten, List.map_map]
  have hm : List.map (List.length ∘ fun m => List.map rowOfTuple (findTuples m)) (stmtSpans t dump)
      = List.map (fun m => (findTuples m).length) (stmtSpans t dump) :=
    List.map_congr_left (fun m _ => by simp)
  rw [hm]

/-- C5: reconciliation is driven solely by the first row's field count —
synthetic names `column_<expected+1> … column_<actual>` are appended when the
first row is wider than the schema, the schema is truncated to the first
row's width when narrower, and is unchanged when equal; in particular
`[a,b]` against a 3-field first row gives `[a,b,column_3]`, and `[a,b,c]`
against a 2-field first row gives `[a,b]`. -/
theorem c5_reconciliation :
    (∀ (cols : List Str) (r0 : List (Option Str)) (rest : List (List (Option Str))),
      (cols.length < r0.length →
        reconcileColumns cols (r0 :: rest)
          = cols ++ (List.range' (cols.length + 1) (r0.length - cols.length)).map synthCol) ∧
      (r0.length < cols.length →
        reconcileColumns cols (r0 :: rest) = cols.take r0.length) ∧
      (r0.length = cols.length → reconcileColumns cols (r0 :: rest) = cols)) ∧
    reconcileColumns [str "a", str "b"] [[none, none, none]]
      = [str "a", str "b", str "column_3"] ∧
    reconcileColumns [str "a", str "b", str "c"] [[none, none]] = [str "a", str "b"] := by
  refine ⟨fun cols r0 rest => ⟨?_, ?_, ?_⟩, by decide, by decide⟩
  · intro h
    simp only [reconcileColumns]
    rw [if_neg (by omega : ¬ r0.length = cols.length), if_pos h]
    congr 1
    have h1 : (fun i => synthCol (i + 1)) = (synthCol ∘ fun i => 1 + i) := by
      funext i
      simp [Function.comp, Nat.add_comm]
    rw [h1, ← List.map_map, List.map_add_range', Nat.add_comm 1 cols.length]
  · intro h
    simp only [reconcileColumns]
    rw [if_neg (by omega : ¬ r0.length = cols.length),
      if_neg (by omega : ¬ cols.length < r0.length)]
  · intro h
    simp only [reconcileColumns]
    rw [if_pos h]

/-- C6: a table with an empty extracted schema (in particular when no
`CREATE TABLE` block matches the name) or with no extracted rows is reported
unavailable: the per-table pipeline returns `none`, regardless of any
matching INSERT statements. -/
theorem c6_unavailable_on_empty :
    (∀ dump t : Str,
      extract_table_schema dump t = [] ∨ extract_inserts t dump = [] →
        extract_table_data dump t = none) ∧
    (∀ dump t : Str,
      splitFirst (crePat t) dump = none → extract_table_schema dump t = []) := by
  constructor
  · intro dump t h
    unfold extract_table_data
    rcases h with h | h
    · rw [h]
      rfl
    · by_cases hc : (extract_table_schema dump t).isEmpty
      · simp [hc]
      · simp [hc, h]
  · intro dump t h
    unfold extract_table_schema
    rw [h]

/-- C6 witness: a concrete dump with an INSERT for `ghost` but no CREATE
TABLE block: the schema is empty and the table is unavailable. -/
theorem c6_unavailable_on_empty_witness :
    extract_table_data dumpGhost (str "ghost") = none :=
  c6_unavailable_on_empty.1 dumpGhost (str "ghost") (Or.inl (by decide))

/-- C9: for the `subscriptions` CREATE TABLE body containing the standalone
line `` FOREIGN KEY (`plan_id`) REFERENCES `plans`(`id`) ``, the Relationship
Extractor produces exactly one ForeignKeyLink, recording the owning table
`subscriptions`, local column `plan_id`, referenced table `plans` and
referenced column `id`. -/
theorem c9_foreign_key_link :
    (parseTableStructure (str "subscriptions") subsBody).name = str "subscriptions" ∧
    (parseTableStructure (str "subscriptions") subsBody).foreign_keys
      = [⟨str "plan_id", str "plans", str "id"⟩] := by
  decide

/-! ## The quote-aware field pattern on well-formed tuples -/

theorem matchQuoted_not_quote {c : Char} (h : ¬ c = quoteCh) (rest : Str) :
    matchQuoted (c :: rest) = none := by
  simp [matchQuoted, h]

theorem matchUnit_nil : matchUnit [] = none := rfl

theorem matchUnit_comma (rest : Str) : matchUnit (',' :: rest) = none := by
  rw [matchUnit, matchQuoted_not_quote (by decide)]
  simp

theorem matchUnit_plain {c : Char} (h1 : ¬ c = quoteCh) (h2 : ¬ c = ',') (rest : Str) :
    matchUnit (c :: rest) = some ([c], rest) := by
  rw [matchUnit, matchQuoted_not_quote h1]
  simp [h2]

theorem matchQuoted_quote {s : Str} (h : quoteCh ∉ s) (t : Str) :
    matchQuoted (quoteCh :: (s ++ quoteCh :: t)) = some (quoteCh :: (s ++ [quoteCh]), t) := by
  rw [matchQuoted, if_pos rfl, splitFirst_char quoteCh s t h]
  rfl

theorem matchUnit_quoted {s : Str} (h : quoteCh ∉ s) (t : Str) :
    matchUnit (quoteCh :: (s ++ quoteCh :: t)) = some (quoteCh :: (s ++ [quoteCh]), t) := by
  rw [matchUnit, matchQuoted_quote h]

theorem matchRunF_succ_some {fuel : Nat} {s u r : Str} (h : matchUnit s = some (u, r)) :
    matchRunF (fuel + 1) s
      = match matchRunF fuel r with
        | none => some (u, r)
        | some (m, r2) => some (u ++ m, r2) := by
  rw [matchRunF, h]

theorem matchRunF_niceTail {t : Str} (ht : niceTail t) (fuel : Nat) :
    matchRunF fuel t = none := by
  cases fuel with
  | zero => rfl
  | succ f =>
    rcases ht with h | ⟨u, h⟩ <;> subst h
    · rw [matchRunF, matchUnit_nil]
    · rw [matchRunF, matchUnit_comma]

theorem matchRunF_plain : ∀ (s : Str), (∀ c ∈ s, plainCh c = true) →
    ∀ (t : Str), niceTail t → ∀ fuel, s.length < fuel →
      matchRunF fuel (s ++ t) = if s.isEmpty then none else some (s, t) := by
  intro s
  induction s with
  | nil =>
    intro _ t ht fuel _
    simpa using matchRunF_niceTail ht fuel
  | cons c cs ih =>
    intro hall t ht fuel hf
    cases fuel with
    | zero => omega
    | succ f =>
      have hc : plainCh c = true := hall c (by simp)
      have hcq : ¬ c = quoteCh := by
        intro hh
        rw [hh] at hc
        simp [plainCh] at hc
      have hcc : ¬ c = ',' := by
        intro hh
        rw [hh] at hc
        simp [plainCh] at hc
      rw [List.cons_append, matchRunF_succ_some (matchUnit_plain hcq hcc _)]
      rw [ih (fun x hx => hall x (by simp [hx])) t ht f (by simp at hf; omega)]
      cases cs with
      | nil => simp
      | cons d ds => simp

theorem matchRunF_quoted {s : Str} (h : quoteCh ∉ s) {t : Str} (ht : niceTail t)
    {fuel : Nat} (hf : 1 < fuel) :
    matchRunF fuel (quoteCh :: (s ++ quoteCh :: t)) = some (quoteCh :: (s ++ [quoteCh]), t) := by
  cases fuel with
  | zero => omega
  | succ f =>
    rw [matchRunF_succ_some (matchUnit_quoted h t), matchRunF_niceTail ht f]

theorem wf_plain_parts {s : Str} (h : (SqlField.plain s).wf = true) :
    s ≠ [] ∧ ∀ c ∈ s, plainCh c = true := by
  simp only [SqlField.wf, Bool.and_eq_true, List.all_eq_true] at h
  refine ⟨?_, h.2⟩
  intro hs
  subst hs
  simp at h

theorem wf_quoted_not_mem {s : Str} (h : (SqlField.quoted s).wf = true) : quoteCh ∉ s := by
  simp only [SqlField.wf, List.all_eq_true] at h
  intro hm
  have := h quoteCh hm
  simp at this

theorem matchRun_text {f : SqlField} (hf : f.wf = true) {t : Str} (ht : niceTail t) :
    matchRun (f.text ++ t) = some (f.text, t) := by
  cases f with
  | plain s =>
    obtain ⟨hne, hall⟩ := wf_plain_parts hf
    show matchRun (s ++ t) = some (s, t)
    rw [matchRun, matchRunF_plain s hall t ht _ (by simp [List.length_append]; omega)]
    simp [hne]
  | quoted s =>
    have hq : quoteCh ∉ s := wf_quoted_not_mem hf
    show matchRun ((quoteCh :: (s ++ [quoteCh])) ++ t) = some (quoteCh :: (s ++ [quoteCh]), t)
    have hsh : (quoteCh :: (s ++ [quoteCh])) ++ t = quoteCh :: (s ++ quoteCh :: t) := by
      simp
    rw [matchRun, hsh]
    exact matchRunF_quoted hq ht (by simp)

theorem matchRun_comma (u : Str) : matchRun (',' :: u) = none := by
  rw [matchRun]
  exact matchRunF_niceTail (Or.inr ⟨u, rfl⟩) _

theorem findallFieldsF_nil (fuel : Nat) : findallFieldsF fuel [] = [] := by
  cases fuel <;> rfl

theorem findallFieldsF_succ_match {fuel : Nat} {c : Char} {rest m r : Str}
    (h : matchRun (c :: rest) = some (m, r)) :
    findallFieldsF (fuel + 1) (c :: rest) = m :: findallFieldsF fuel r := by
  rw [findallFieldsF, h]

theorem findallFieldsF_succ_skip {fuel : Nat} {c : Char} {rest : Str}
    (h : matchRun (c :: rest) = none) :
    findallFieldsF (fuel + 1) (c :: rest) = findallFieldsF fuel rest := by
  rw [findallFieldsF, h]

theorem SqlField.text_ne_nil {f : SqlField} (h : f.wf = true) : f.text ≠ [] := by
  cases f with
  | quoted s => simp [SqlField.text]
  | plain s => simpa [SqlField.text] using (wf_plain_parts h).1

theorem findallFieldsF_render : ∀ (fs : List SqlField), (∀ f ∈ fs, f.wf = true) →
    ∀ fuel, (renderFields fs).length < fuel →
      findallFieldsF fuel (renderFields fs) = fs.map SqlField.text := by
  intro fs
  induction fs with
  | nil =>
    intro _ fuel hf
    cases fuel with
    | zero => simp [renderFields] at hf
    | succ f => rfl
  | cons f gs ih =>
    intro hall fuel hf
    have hwf : f.wf = true := hall f (by simp)
    obtain ⟨c, r, hcr⟩ : ∃ c r, f.text = c :: r := by
      cases hft : f.text with
      | nil => exact absurd hft (SqlField.text_ne_nil hwf)
      | cons c r => exact ⟨c, r, rfl⟩
    cases gs with
    | nil =>
      have hren : renderFields [f] = f.text := rfl
      rw [hren] at hf ⊢
      cases fuel with
      | zero => omega
      | succ fl =>
        have hmr : matchRun f.text = some (f.text, []) := by
          have h0 := matchRun_text hwf (Or.inl rfl)
          rwa [List.append_nil] at h0
        rw [hcr] at hmr ⊢
        rw [findallFieldsF_succ_match hmr, findallFieldsF_nil, ← hcr]
        rfl
    | cons g hs =>
      have hren : renderFields (f :: g :: hs) = f.text ++ ',' :: renderFields (g :: hs) := rfl
      rw [hren] at hf ⊢
      cases fuel with
      | zero => omega
      | succ fl =>
        have hmr : matchRun (f.text ++ ',' :: renderFields (g :: hs))
            = some (f.text, ',' :: renderFields (g :: hs)) :=
          matchRun_text hwf (Or.inr ⟨_, rfl⟩)
        rw [hcr] at hmr hf ⊢
        rw [List.cons_append] at hmr hf ⊢
        rw [findallFieldsF_succ_match hmr]
        have hlen : (renderFields (g :: hs)).length + 1 < fl := by
          simp at hf
          omega
        cases fl with
        | zero => omega
        | succ fl2 =>
          rw [findallFieldsF_succ_skip (matchRun_comma _)]
          rw [ih (fun x hx => hall x (by simp [hx])) fl2 (by omega), ← hcr]
          rfl

/-! ## Stripping lemmas -/

theorem dropWhile_no {p : Char → Bool} {s : Str} (h : ∀ c ∈ s, p c = false) :
    s.dropWhile p = s := by
  cases s with
  | nil => rfl
  | cons c cs =>
    rw [List.dropWhile_cons, h c (by simp)]
    simp

theorem stripBy_no {p : Char → Bool} {s : Str} (h : ∀ c ∈ s, p c = false) :
    stripBy p s = s := by
  unfold stripBy dropTrail
  rw [dropWhile_no h, dropWhile_no (fun c hc => h c (List.mem_reverse.mp hc)),
    List.reverse_reverse]

theorem stripBy_ends {p : Char → Bool} {c d : Char} {m : Str}
    (hc : p c = false) (hd : p d = false) :
    stripBy p (c :: (m ++ [d])) = c :: (m ++ [d]) := by
  unfold stripBy dropTrail
  rw [List.dropWhile_cons, hc]
  simp only [Bool.false_eq_true, if_false]
  rw [show (c :: (m ++ [d])).reverse = d :: (m.reverse ++ [c]) by simp]
  rw [List.dropWhile_cons, hd]
  simp

theorem stripQuotes_quoted {s : Str} (h : quoteCh ∉ s) :
    stripQuotes (quoteCh :: (s ++ [quoteCh])) = s := by
  cases s with
  | nil => decide
  | cons a as =>
    have ha : ¬ a = quoteCh := fun hh => h (by simp [hh])
    unfold stripQuotes stripBy dropTrail
    rw [List.dropWhile_cons, if_pos (by simp)]
    rw [List.cons_append, List.dropWhile_cons, if_neg (by simp [ha])]
    rw [show (a :: (as ++ [quoteCh])).reverse = quoteCh :: (as.reverse ++ [a]) by simp]
    rw [List.dropWhile_cons, if_pos (by simp)]
    have hrest : ∀ c ∈ as.reverse ++ [a], (fun c => decide (c = quoteCh)) c = false := by
      intro c hc
      rcases List.mem_append.mp hc with h1 | h2
      · have hcs : c ∈ as := List.mem_reverse.mp h1
        have hne : ¬ c = quoteCh := fun hh => h (List.mem_cons_of_mem a (hh ▸ hcs))
        simp [hne]
      · simp at h2
        subst h2
        simp [ha]
    rw [dropWhile_no hrest]
    simp

theorem fieldClean_text {f : SqlField} (h : f.wf = true) : fieldClean f.text = f.val := by
  cases f with
  | plain s =>
    obtain ⟨hne, hall⟩ := wf_plain_parts h
    show fieldClean s = s
    have hs : ∀ c ∈ s, isSpaceCh c = false := by
      intro c hc
      have := hall c hc
      simp [plainCh] at this
      simpa using this.2
    have hq : ∀ c ∈ s, (decide (c = quoteCh)) = false := by
      intro c hc
      have := hall c hc
      simp [plainCh] at this
      simpa using this.1.2
    unfold fieldClean pyStrip stripQuotes
    rw [stripBy_no hs, stripBy_no hq]
  | quoted s =>
    have hq : quoteCh ∉ s := wf_quoted_not_mem h
    show fieldClean (quoteCh :: (s ++ [quoteCh])) = s
    unfold fieldClean pyStrip
    rw [stripBy_ends (by decide) (by decide)]
    exact stripQuotes_quoted hq

/-- On a well-formed tuple text, the source's quote-aware field split recovers
exactly the field values: quoted fields keep their full content (commas and
all), and one field is produced per rendered field. -/
theorem rowOfTuple_render {fs : List SqlField} (h : ∀ f ∈ fs, f.wf = true) :
    rowOfTuple (renderFields fs) = fs.map SqlField.val := by
  unfold rowOfTuple findallFields
  rw [findallFieldsF_render fs h _ (Nat.lt_succ_self _), List.map_map]
  exact List.map_congr_left (fun f hf => fieldClean_text (h f hf))

/-- C8: within a tuple, a field value enclosed in single quotes that contains
a comma is extracted as one single field with the comma preserved: for every
well-formed tuple (quoted fields with arbitrary quote-free content, bare
fields without separators), the extractor returns exactly one field per
rendered field, with quoted content — commas included — intact. -/
theorem c8_quoted_comma_single_field (fs : List SqlField)
    (h : ∀ f ∈ fs, f.wf = true) :
    rowOfTuple (renderFields fs) = fs.map SqlField.val :=
  rowOfTuple_render h

/-- C8 witness: the tuple text `1,'Doe, John',25` decomposes into the three
fields `1`, `Doe, John` (one field, comma preserved) and `25`. -/
theorem c8_quoted_comma_single_field_witness :
    rowOfTuple (renderFields
      [SqlField.plain (str "1"), SqlField.quoted (str "Doe, John"), SqlField.plain (str "25")])
      = [str "1", str "Doe, John", str "25"] :=
  c8_quoted_comma_single_field _ (by decide)

/-! ## Statement-span and tuple-boundary lemmas -/

theorem strStarts_cons_ne {p c : Char} (h : ¬ p = c) (ps cs : Str) :
    strStarts (p :: ps) (c :: cs) = false := by
  simp [strStarts, h]

theorem insPat_head (t : Str) :
    insPat t = 'I' :: (str "NSERT INTO " ++ btCh :: t ++ [btCh]) := rfl

theorem stmtSpansF_nil (t : Str) (fuel : Nat) : stmtSpansF t fuel [] = [] := by
  cases fuel with
  | zero => rfl
  | succ f =>
    rw [stmtSpansF]
    rw [show splitFirst (insPat t) [] = none from ?_]
    · rw [insPat_head, splitFirst]
      rfl

theorem findTuplesF_nil (fuel : Nat) : findTuplesF fuel [] = [] := by
  cases fuel <;> rfl

theorem wfTup_wf {f : SqlField} (h : f.wfTup = true) : f.wf = true := by
  cases f with
  | quoted s =>
    simp only [SqlField.wfTup, List.all_eq_true] at h
    simp only [SqlField.wf, List.all_eq_true]
    intro c hc
    have := h c hc
    simp at this ⊢
    exact this.1.1
  | plain s =>
    simp only [SqlField.wfTup, Bool.and_eq_true, List.all_eq_true] at h
    simp only [SqlField.wf, Bool.and_eq_true, List.all_eq_true]
    refine ⟨h.1, fun c hc => ?_⟩
    have := h.2 c hc
    simp only [Bool.and_eq_true] at this
    exact this.1.1.1

theorem text_chars {f : SqlField} (h : f.wfTup = true) :
    ∀ c ∈ f.text, ¬ c = ';' ∧ ¬ c = ')' := by
  cases f with
  | quoted s =>
    intro c hc
    simp only [SqlField.text] at hc
    simp only [SqlField.wfTup, List.all_eq_true] at h
    rcases List.mem_cons.mp hc with h1 | h2
    · subst h1; exact ⟨by decide, by decide⟩
    · rcases List.mem_append.mp h2 with h3 | h4
      · have := h c h3
        simp at this
        exact ⟨this.2, this.1.2⟩
      · simp at h4
        subst h4
        exact ⟨by decide, by decide⟩
  | plain s =>
    intro c hc
    simp only [SqlField.text] at hc
    simp only [SqlField.wfTup, Bool.and_eq_true, List.all_eq_true] at h
    have := h.2 c hc
    simp at this
    exact ⟨this.2, this.1.1.2⟩

theorem renderFields_chars {fs : List SqlField} (h : ∀ f ∈ fs, f.wfTup = true) :
    ∀ c ∈ renderFields fs, ¬ c = ';' ∧ ¬ c = ')' := by
  induction fs with
  | nil =>
    intro c hc
    simp [renderFields] at hc
  | cons f gs ih =>
    cases gs with
    | nil =>
      intro c hc
      exact text_chars (h f (by simp)) c hc
    | cons g hs =>
      intro c hc
      rw [show renderFields (f :: g :: hs) = f.text ++ ',' :: renderFields (g :: hs) from rfl] at hc
      rcases List.mem_append.mp hc with h1 | h2
      · exact text_chars (h f (by simp)) c h1
      · rcases List.mem_cons.mp h2 with h3 | h4
        · subst h3
          exact ⟨by decide, by decide⟩
        · exact ih (fun x hx => h x (by simp [hx])) c h4

theorem spans_no_semi (t : Str) : ∀ (fuel : Nat) (s span : Str),
    span ∈ stmtSpansF t fuel s → ';' ∉ span := by
  intro fuel
  induction fuel with
  | zero =>
    intro s span hmem
    simp [stmtSpansF] at hmem
  | succ f ih =>
    intro s span hmem
    rw [stmtSpansF] at hmem
    cases h1 : splitFirst (insPat t) s with
    | none =>
      simp only [h1] at hmem
      simp at hmem
    | some pr1 =>
      obtain ⟨x1, y1⟩ := pr1
      simp only [h1] at hmem
      cases h2 : splitFirst valuesLit y1 with
      | none =>
        simp only [h2] at hmem
        simp at hmem
      | some pr2 =>
        obtain ⟨x2, y2⟩ := pr2
        simp only [h2] at hmem
        cases h3 : splitFirst [';'] y2 with
        | none =>
          simp only [h3] at hmem
          simp at hmem
        | some pr3 =>
          obtain ⟨sp, rest⟩ := pr3
          simp only [h3, List.mem_cons] at hmem
          rcases hmem with hm | hm
          · subst hm
            exact splitFirst_char_not_mem ';' y2 span rest h3
          · exact ih rest span hm

theorem splitFirst_valuesLit (X : Str) :
    splitFirst valuesLit (' ' :: (valuesLit ++ X)) = some ([' '], X) := by
  have hne : strStarts valuesLit (' ' :: (valuesLit ++ X)) = false := by
    rw [show valuesLit = 'V' :: str "ALUES " from rfl]
    exact strStarts_cons_ne (by decide) _ _
  rw [splitFirst_cons_neg hne, splitFirst_self]
  rfl

/-- C3 (counterexample): a single-quoted field containing a literal closing
parenthesis is *not* returned intact: for `VALUES ('a)b',2)` the lazy tuple
pattern ends the tuple at the quoted `)`, so the extractor returns the single
mangled row `[["a"]]` and the value `a)b` appears nowhere in the output. -/
theorem c3_paren_counterexample :
    extract_inserts (str "t") dumpParen = [[str "a"]] ∧
    ((extract_inserts (str "t") dumpParen).all
      (fun row => row.all (fun fld => !decide (fld = str "a)b")))) = true := by
  decide

/-- C3 (amended): a single-quoted string field may contain a literal *opening*
parenthesis (or a comma) without confusing the tuple boundary detection — for
any well-formed tuple whose quoted fields are free of `)`, `;` and quotes, the
whole tuple is recovered exactly; a *closing* parenthesis inside a quoted
field, however, terminates the tuple at that character (see the
counterexample). -/
theorem c3_paren_in_quotes_amended (fs : List SqlField)
    (h : ∀ f ∈ fs, f.wfTup = true) :
    extract_inserts (str "t")
      (str "INSERT INTO `t` VALUES (" ++ renderFields fs ++ str ");")
      = [fs.map SqlField.val] := by
  have hch := renderFields_chars h
  have hdump : str "INSERT INTO `t` VALUES (" ++ renderFields fs ++ str ");"
      = insPat (str "t")
        ++ (' ' :: (valuesLit ++ ('(' :: (renderFields fs ++ [')'] ++ [';'])))) := by
    rw [(by decide : str "INSERT INTO `t` VALUES ("
      = insPat (str "t") ++ (' ' :: (valuesLit ++ ['('])))]
    rw [(by decide : str ");" = [')'] ++ [';'])]
    simp
  rw [hdump, extract_inserts_eq]
  have hspans : stmtSpans (str "t")
      (insPat (str "t")
        ++ (' ' :: (valuesLit ++ ('(' :: (renderFields fs ++ [')'] ++ [';'])))))
      = ['(' :: (renderFields fs ++ [')'])] := by
    rw [stmtSpans, stmtSpansF]
    have hval := splitFirst_valuesLit ('(' :: (renderFields fs ++ [')'] ++ [';']))
    have hnm : ';' ∉ '(' :: (renderFields fs ++ [')']) := by
      intro hm
      rcases List.mem_cons.mp hm with h1 | h2
      · exact absurd h1 (by decide)
      · rcases List.mem_append.mp h2 with h3 | h4
        · exact (hch ';' h3).1 rfl
        · simp at h4
    have hsc : splitFirst [';'] ('(' :: (renderFields fs ++ [')'] ++ [';']))
        = some ('(' :: (renderFields fs ++ [')']), []) := by
      rw [show '(' :: (renderFields fs ++ [')'] ++ [';'])
        = ('(' :: (renderFields fs ++ [')'])) ++ ';' :: [] by simp]
      exact splitFirst_char ';' _ _ hnm
    simp only [splitFirst_self, hval, hsc, stmtSpansF_nil]
  rw [hspans]
  have htuples : findTuples ('(' :: (renderFields fs ++ [')'])) = [renderFields fs] := by
    rw [show findTuples ('(' :: (renderFields fs ++ [')']))
      = findTuplesF (('(' :: (renderFields fs ++ [')'])).length + 1)
        ('(' :: (renderFields fs ++ [')'])) from rfl, findTuplesF]
    have hopen : splitFirst ['('] ('(' :: (renderFields fs ++ [')']))
        = some ([], renderFields fs ++ [')']) := by
      have h0 := splitFirst_self ['('] (renderFields fs ++ [')'])
      simpa using h0
    have hclose : splitFirst [')'] (renderFields fs ++ [')'])
        = some (renderFields fs, []) := by
      have h0 := splitFirst_char ')' (renderFields fs) [] (fun hm => (hch _ hm).2 rfl)
      simpa using h0
    simp only [hopen, hclose, findTuplesF_nil]
  simp [htuples, rowOfTuple_render (fun f hf => wfTup_wf (h f hf))]

/-- C3 (amended) witness: for `VALUES ('a(b',2)` — a quoted field containing a
literal opening parenthesis — the extractor returns the tuple intact as
`[["a(b","2"]]`. -/
theorem c3_paren_in_quotes_amended_witness :
    extract_inserts (str "t")
      (str "INSERT INTO `t` VALUES ("
        ++ renderFields [SqlField.quoted (str "a(b"), SqlField.plain (str "2")]
        ++ str ");")
      = [[str "a(b", str "2"]] :=
  c3_paren_in_quotes_amended _ (by decide)

/-- C10: every statement span taken by the Row Extractor ends at the first `;`
after `VALUES` — no span ever contains a semicolon, even one inside a
single-quoted field — and for the dump
`INSERT INTO `t` VALUES ('x'),('a;b'),(2);`, whose second tuple embeds a
semicolon in a quoted string, the span is cut inside that string: only the
first tuple survives and the trailing `(2)` tuple is never extracted. -/
theorem c10_span_ends_at_first_semicolon :
    (∀ (t dump span : Str), span ∈ stmtSpans t dump → ';' ∉ span) ∧
    stmtSpans (str "t") dumpSemi = [str "('x'),('a"] ∧
    extract_inserts (str "t") dumpSemi = [[str "x"]] := by
  refine ⟨fun t dump span hm => spans_no_semi t _ dump span hm, by decide, by decide⟩
